import Mathlib

/-!
Shallow embedding of the numeric core of NN-Python
(src/nlp/CythonFuncsPyx.pyx) and verification of the frozen claims.

Modelling conventions:
* `REAL_t` (C float) values are modelled as exact rationals `ℚ`; the
  transcendental primitives `exp`, `log`, `sqrt` are external libc calls in
  the source, so the kernels are parameterized by functions
  `fexp flog fsqrt : ℚ → ℚ` standing for them.
* Flat row-major buffers are `List ℚ`; unsigned 32-bit keys are `ℕ`.
  A read `buf[p]` becomes `buf.getD p 0` and a write becomes `buf.set p v`
  (in-bounds access is a precondition of the source, stated as a hypothesis
  where a theorem needs it).
* The BLAS primitives `sdot`/`dsdot` both compute a mathematical dot
  product (they differ only in return precision, which the idealized
  arithmetic erases); `saxpy` is the scaled accumulate `y += alpha * x`.
* Each C loop nest becomes a fold of a per-iteration step function that is
  a line-by-line translation of the loop body.
-/

namespace NNPython

/-! ### Basic list-buffer lemmas -/

theorem getD_set_self (l : List ℚ) (i : ℕ) (a : ℚ) (h : i < l.length) :
    (l.set i a).getD i 0 = a := by
  simp [List.getD, List.getElem?_set_eq_of_lt, h]

theorem getD_set_ne (l : List ℚ) (i j : ℕ) (a : ℚ) (h : i ≠ j) :
    (l.set i a).getD j 0 = l.getD j 0 := by
  simp [List.getD, List.getElem?_set_ne h]

/-! ### Vector primitives (BLAS adapter)

`dotSeg n X xi Y yi` is the dot product of the length-`n` segments of `X`
and `Y` starting at offsets `xi` and `yi`; it models
`sdot(&n, &X[xi], &ONE, &Y[yi], &ONE)` (and `dsdot`, which differs only in
return precision).  `saxpySeg n a X xi Y yi` models
`saxpy(&n, &a, &X[xi], &ONE, &Y[yi], &ONE)`, i.e. `Y[yi+v] += a * X[xi+v]`
for `v = 0 .. n-1`. -/

def dotSeg (n : ℕ) (X : List ℚ) (xi : ℕ) (Y : List ℚ) (yi : ℕ) : ℚ :=
  match n with
  | 0 => 0
  | m + 1 => dotSeg m X xi Y yi + X.getD (xi + m) 0 * Y.getD (yi + m) 0

def saxpySeg (n : ℕ) (a : ℚ) (X : List ℚ) (xi : ℕ) (Y : List ℚ) (yi : ℕ) :
    List ℚ :=
  match n with
  | 0 => Y
  | m + 1 =>
    let Y2 := saxpySeg m a X xi Y yi
    Y2.set (yi + m) (Y2.getD (yi + m) 0 + a * X.getD (xi + m) 0)

theorem saxpySeg_length (n : ℕ) (a : ℚ) (X : List ℚ) (xi : ℕ) (Y : List ℚ)
    (yi : ℕ) : (saxpySeg n a X xi Y yi).length = Y.length := by
  induction n with
  | zero => rfl
  | succ m ih => simp [saxpySeg, List.length_set, ih]

theorem saxpySeg_getD_out (n : ℕ) (a : ℚ) (X : List ℚ) (xi : ℕ) (Y : List ℚ)
    (yi p : ℕ) (h : ∀ v, v < n → yi + v ≠ p) :
    (saxpySeg n a X xi Y yi).getD p 0 = Y.getD p 0 := by
  induction n with
  | zero => rfl
  | succ m ih =>
    have hm : yi + m ≠ p := h m (Nat.lt_succ_self m)
    simp only [saxpySeg]
    rw [getD_set_ne _ _ _ _ hm]
    exact ih (fun v hv => h v (Nat.lt_succ_of_lt hv))

theorem saxpySeg_getD_in (n : ℕ) (a : ℚ) (X : List ℚ) (xi : ℕ) (Y : List ℚ)
    (yi v : ℕ) (hv : v < n) (hlen : yi + n ≤ Y.length) :
    (saxpySeg n a X xi Y yi).getD (yi + v) 0 =
      Y.getD (yi + v) 0 + a * X.getD (xi + v) 0 := by
  induction n with
  | zero => omega
  | succ m ih =>
    simp only [saxpySeg]
    rcases Nat.lt_succ_iff_lt_or_eq.mp hv with hlt | heq
    · have hne : yi + m ≠ yi + v := by omega
      rw [getD_set_ne _ _ _ _ hne]
      exact ih hlt (by omega)
    · subst heq
      have hbound : yi + v < (saxpySeg v a X xi Y yi).length := by
        rw [saxpySeg_length]; omega
      rw [getD_set_self _ _ _ hbound]
      rw [saxpySeg_getD_out v a X xi Y yi (yi + v) (fun u hu => by omega)]

/-! ### Module constants (source lines 72-76) -/

def MAX_HSM_KEY : ℕ := 12345678

def ADA_EPS : ℚ := 1 / 1000

def ADA_RHO : ℚ := 98 / 100

/-! ### Two-table pairwise logistic kernel (`cy_w2v_ff_bp0`, lines 82-113)

Mutable state of one call: anchor-table gradient `dWa`, context-table
gradient `dWc`, bias gradient `db`, and the loss buffer `L` (the source
only ever touches `L[0]`). -/

structure W2VState where
  dWa : List ℚ
  dWc : List ℚ
  db : List ℚ
  L : List ℚ
  deriving DecidableEq

/-- Body of the inner `for j in range(pn_size)` loop of `cy_w2v_ff_bp0`,
with the outer-loop computations of `a_key` and `row1` inlined (they are
pure and depend only on `i`). -/
def w2v_slot (fexp flog : ℚ → ℚ) (anc_keys pn_keys : List ℕ)
    (pn_sign Wa Wc b : List ℚ) (do_grad : ℤ) (vec_dim pn_size : ℕ)
    (i j : ℕ) (s : W2VState) : W2VState :=
  let a_key := anc_keys.getD i 0
  let row1 := a_key * vec_dim
  let c_key := pn_keys.getD (i * pn_size + j) 0
  let row2 := c_key * vec_dim
  let neg_label := -1 * pn_sign.getD (i * pn_size + j) 0
  let y := dotSeg vec_dim Wa row1 Wc row2 + b.getD c_key 0
  let exp_pns_y := fexp (neg_label * y)
  let L2 := s.L.set 0 (s.L.getD 0 0 + flog (1 + exp_pns_y))
  if do_grad = 1 then
    let g := neg_label * (exp_pns_y / (1 + exp_pns_y))
    let dWc2 := saxpySeg vec_dim g Wa row1 s.dWc row2
    let dWa2 := saxpySeg vec_dim g Wc row2 s.dWa row1
    let db2 := s.db.set c_key (s.db.getD c_key 0 + g)
    ⟨dWa2, dWc2, db2, L2⟩
  else
    ⟨s.dWa, s.dWc, s.db, L2⟩

/-- One iteration of the outer `for sp_i in range(sp_size)` loop of
`cy_w2v_ff_bp0`, processing minibatch row `i = sp_idx[sp_i]`. -/
def w2v_row (fexp flog : ℚ → ℚ) (anc_keys pn_keys : List ℕ)
    (pn_sign Wa Wc b : List ℚ) (do_grad : ℤ) (vec_dim pn_size : ℕ)
    (i : ℕ) (s : W2VState) : W2VState :=
  (List.range pn_size).foldl
    (fun s2 j =>
      w2v_slot fexp flog anc_keys pn_keys pn_sign Wa Wc b do_grad
        vec_dim pn_size i j s2) s

/-- `cy_w2v_ff_bp0`: double-precision-dot variant of the two-table
pairwise logistic forward/backward kernel.  (`cy_w2v_ff_bp1` is textually
identical except that it calls `sdot` instead of `dsdot`; under the
idealized arithmetic both are this function.) -/
def cy_w2v_ff_bp0 (fexp flog : ℚ → ℚ) (sp_idx anc_keys pn_keys : List ℕ)
    (pn_sign Wa Wc b : List ℚ) (do_grad : ℤ) (vec_dim pn_size : ℕ)
    (s : W2VState) : W2VState :=
  sp_idx.foldl
    (fun s2 i =>
      w2v_row fexp flog anc_keys pn_keys pn_sign Wa Wc b do_grad
        vec_dim pn_size i s2) s

/-- The loss contribution of one (anchor, target-slot) pair, as computed by
the body of `cy_w2v_ff_bp0`: `log(1 + exp((-1*sign) * y))` with
`y = dot(anchor_row, target_row) + b[c_key]`. -/
def w2v_loss_term (fexp flog : ℚ → ℚ) (anc_keys pn_keys : List ℕ)
    (pn_sign Wa Wc b : List ℚ) (vec_dim pn_size : ℕ) (i j : ℕ) : ℚ :=
  flog (1 + fexp ((-1 * pn_sign.getD (i * pn_size + j) 0) *
    (dotSeg vec_dim Wa (anc_keys.getD i 0 * vec_dim) Wc
      (pn_keys.getD (i * pn_size + j) 0 * vec_dim) +
     b.getD (pn_keys.getD (i * pn_size + j) 0) 0)))

/-- Total loss added to `L[0]` by one call of `cy_w2v_ff_bp0`. -/
def w2v_loss_total (fexp flog : ℚ → ℚ) (sp_idx anc_keys pn_keys : List ℕ)
    (pn_sign Wa Wc b : List ℚ) (vec_dim pn_size : ℕ) : ℚ :=
  (sp_idx.map (fun i =>
    ((List.range pn_size).map (fun j =>
      w2v_loss_term fexp flog anc_keys pn_keys pn_sign Wa Wc b
        vec_dim pn_size i j)).sum)).sum

/-! ### Shared-table pairwise logistic kernel (`cy_nsl_ff_bp0`, lines 224-256)

Mutable state: input gradient `dX`, parameter gradient `dW`, bias gradient
`db`, per-slot loss matrix `L`.  The same state type also serves the
contrastive-ratio kernel, whose signature is identical. -/

structure NSLState where
  dX : List ℚ
  dW : List ℚ
  db : List ℚ
  L : List ℚ
  deriving DecidableEq

/-- Body of the inner `for j in range(pn_size)` loop of `cy_nsl_ff_bp0`
for minibatch row `Xk = sp_idx[sp_i]`, including the huge-key exhaustion
check `if (W_key < MAX_HSM_KEY)`. -/
def nsl_slot (fexp flog : ℚ → ℚ) (pn_keys : List ℕ)
    (pn_sign X W b : List ℚ) (do_grad : ℤ) (vec_dim pn_size : ℕ)
    (Xk j : ℕ) (s : NSLState) : NSLState :=
  let row1 := Xk * vec_dim
  let W_key := pn_keys.getD (Xk * pn_size + j) 0
  if W_key < MAX_HSM_KEY then
    let row2 := W_key * vec_dim
    let neg_label := -1 * pn_sign.getD (Xk * pn_size + j) 0
    let y := dotSeg vec_dim X row1 W row2 + b.getD W_key 0
    let exp_pns_y := fexp (neg_label * y)
    let L2 := s.L.set (Xk * pn_size + j) (flog (1 + exp_pns_y))
    if do_grad = 1 then
      let g := neg_label * (exp_pns_y / (1 + exp_pns_y))
      let dW2 := saxpySeg vec_dim g X row1 s.dW row2
      let dX2 := saxpySeg vec_dim g W row2 s.dX row1
      let db2 := s.db.set W_key (s.db.getD W_key 0 + g)
      ⟨dX2, dW2, db2, L2⟩
    else
      ⟨s.dX, s.dW, s.db, L2⟩
  else
    s

/-- One outer-loop iteration of `cy_nsl_ff_bp0` for row `Xk`. -/
def nsl_row (fexp flog : ℚ → ℚ) (pn_keys : List ℕ)
    (pn_sign X W b : List ℚ) (do_grad : ℤ) (vec_dim pn_size : ℕ)
    (Xk : ℕ) (s : NSLState) : NSLState :=
  (List.range pn_size).foldl
    (fun s2 j =>
      nsl_slot fexp flog pn_keys pn_sign X W b do_grad vec_dim pn_size
        Xk j s2) s

/-- `cy_nsl_ff_bp0`: shared-table pairwise logistic forward/backward
kernel (negative sampling and hierarchical softmax).  `cy_nsl_ff_bp1`
differs only in dot-product return precision. -/
def cy_nsl_ff_bp0 (fexp flog : ℚ → ℚ) (sp_idx pn_keys : List ℕ)
    (pn_sign X W b : List ℚ) (do_grad : ℤ) (vec_dim pn_size : ℕ)
    (s : NSLState) : NSLState :=
  sp_idx.foldl
    (fun s2 Xk =>
      nsl_row fexp flog pn_keys pn_sign X W b do_grad vec_dim pn_size
        Xk s2) s

/-- Per-slot loss value written by `cy_nsl_ff_bp0` for a non-sentinel
slot. -/
def nsl_loss_term (fexp flog : ℚ → ℚ) (pn_keys : List ℕ)
    (pn_sign X W b : List ℚ) (vec_dim pn_size : ℕ) (Xk j : ℕ) : ℚ :=
  flog (1 + fexp ((-1 * pn_sign.getD (Xk * pn_size + j) 0) *
    (dotSeg vec_dim X (Xk * vec_dim) W
      (pn_keys.getD (Xk * pn_size + j) 0 * vec_dim) +
     b.getD (pn_keys.getD (Xk * pn_size + j) 0) 0)))

/-! ### Contrastive-ratio kernel (`cy_acl_ff_bp0`, lines 322-384)

The loop constants of the source (`a = 1.0`, `k = 1.0`, `c = 0.1`) and the
gradient-coefficient expressions are factored into named definitions so
that the claims can refer to them; the slot body below uses them exactly
where the source computes the corresponding expressions. -/

def acl_a : ℚ := 1

def acl_k : ℚ := 1

def acl_c : ℚ := 1 / 10

/-- `denom = f_p + f_n + c` (source line 367). -/
def acl_denom (c f_p f_n : ℚ) : ℚ := f_p + f_n + c

/-- `g_yp = -(a * (c + f_n)) / denom` (source line 371). -/
def acl_g_yp (a c f_n denom : ℚ) : ℚ := -(a * (c + f_n)) / denom

/-- `g_yn = (a * f_n) / denom` (source line 372). -/
def acl_g_yn (a f_n denom : ℚ) : ℚ := (a * f_n) / denom

/-- `g_bp = -(c + f_n) / denom` (source line 380). -/
def acl_g_bp (c f_n denom : ℚ) : ℚ := -(c + f_n) / denom

/-- `g_bn = f_n / denom` (source line 381). -/
def acl_g_bn (f_n denom : ℚ) : ℚ := f_n / denom

/-- Body of the inner `for j in range(pn_size)` loop of `cy_acl_ff_bp0`.
The loop variables `Wk_p` and `f_p`, set at slot `j = 0` and reused by
every later slot of the same anchor row, are threaded through the fold as
the first component of the accumulator. -/
def acl_slot (fexp flog : ℚ → ℚ) (pn_keys : List ℕ) (X W b : List ℚ)
    (do_grad : ℤ) (vec_dim pn_size : ℕ) (Xk j : ℕ)
    (acc : (ℕ × ℚ) × NSLState) : (ℕ × ℚ) × NSLState :=
  let row1 := Xk * vec_dim
  if j = 0 then
    let Wk_p := pn_keys.getD (Xk * pn_size + j) 0
    let r_p := Wk_p * vec_dim
    let y_p := dotSeg vec_dim X row1 W r_p
    let b_p := b.getD Wk_p 0
    let f_p := fexp (acl_a * y_p + b_p)
    ((Wk_p, f_p), acc.2)
  else
    let Wk_p := acc.1.1
    let f_p := acc.1.2
    let r_p := Wk_p * vec_dim
    let s := acc.2
    let Wk_n := pn_keys.getD (Xk * pn_size + j) 0
    let r_n := Wk_n * vec_dim
    let y_n := dotSeg vec_dim X row1 W r_n
    let b_n := b.getD Wk_n 0
    let f_n := acl_k * fexp (acl_a * y_n + b_n)
    let denom := acl_denom acl_c f_p f_n
    let L2 := s.L.set (Xk * pn_size + j) (-flog (f_p / denom))
    if do_grad = 1 then
      let g_yp := acl_g_yp acl_a acl_c f_n denom
      let g_yn := acl_g_yn acl_a f_n denom
      let dX2 := saxpySeg vec_dim g_yn W r_n
        (saxpySeg vec_dim g_yp W r_p s.dX row1) row1
      let dW2 := saxpySeg vec_dim g_yn X row1
        (saxpySeg vec_dim g_yp X row1 s.dW r_p) r_n
      let g_bp := acl_g_bp acl_c f_n denom
      let g_bn := acl_g_bn f_n denom
      let db2 := s.db.set Wk_p (s.db.getD Wk_p 0 + g_bp)
      let db3 := db2.set Wk_n (db2.getD Wk_n 0 + g_bn)
      ((Wk_p, f_p), ⟨dX2, dW2, db3, L2⟩)
    else
      ((Wk_p, f_p), ⟨s.dX, s.dW, s.db, L2⟩)

/-- One outer-loop iteration of `cy_acl_ff_bp0` for anchor row `Xk`.  The
cache accumulator starts at the (never-read-before-set) junk value
`(0, 0)`, matching the uninitialized C locals. -/
def acl_row (fexp flog : ℚ → ℚ) (pn_keys : List ℕ) (X W b : List ℚ)
    (do_grad : ℤ) (vec_dim pn_size : ℕ) (Xk : ℕ) (s : NSLState) :
    NSLState :=
  ((List.range pn_size).foldl
    (fun acc j =>
      acl_slot fexp flog pn_keys X W b do_grad vec_dim pn_size Xk j acc)
    ((0, 0), s)).2

/-- `cy_acl_ff_bp0`: contrastive-ratio forward/backward kernel
(double-precision dot variant).  Note that the `pn_sign` argument is part
of the signature but is never read by the body, exactly as in the
source. -/
def cy_acl_ff_bp0 (fexp flog : ℚ → ℚ) (sp_idx pn_keys : List ℕ)
    (pn_sign X W b : List ℚ) (do_grad : ℤ) (vec_dim pn_size : ℕ)
    (s : NSLState) : NSLState :=
  sp_idx.foldl
    (fun s2 Xk =>
      acl_row fexp flog pn_keys X W b do_grad vec_dim pn_size Xk s2) s

/-- `cy_acl_ff_bp1`: the single-precision-dot variant of the
contrastive-ratio kernel; its body is line-for-line that of
`cy_acl_ff_bp0` with `sdot` in place of `dsdot`, which the idealized
arithmetic renders identical.  `pn_sign` is again never read. -/
def cy_acl_ff_bp1 (fexp flog : ℚ → ℚ) (sp_idx pn_keys : List ℕ)
    (pn_sign X W b : List ℚ) (do_grad : ℤ) (vec_dim pn_size : ℕ)
    (s : NSLState) : NSLState :=
  sp_idx.foldl
    (fun s2 Xk =>
      acl_row fexp flog pn_keys X W b do_grad vec_dim pn_size Xk s2) s

/-! ### Sparse adaptive-gradient update (`cy_ag_update_2d` lines 486-508,
`cy_ag_update_1d` lines 529-545) -/

structure AGState where
  W : List ℚ
  dW : List ℚ
  mW : List ℚ
  deriving DecidableEq

/-- The per-element update shared by both variants, at flat index `p`:
`mW[p] = ADA_RHO*mW[p] + (1-ADA_RHO)*dW[p]*dW[p]`, then
`W[p] -= alpha * (dW[p] / (sqrt(mW[p]) + ADA_EPS))` (reading the freshly
written moment), then `dW[p] = 0`. -/
def ag_elem (fsqrt : ℚ → ℚ) (alpha : ℚ) (p : ℕ) (s : AGState) : AGState :=
  let mW2 := s.mW.set p
    (ADA_RHO * s.mW.getD p 0 + (1 - ADA_RHO) * s.dW.getD p 0 * s.dW.getD p 0)
  let W2 := s.W.set p
    (s.W.getD p 0 - alpha * (s.dW.getD p 0 / (fsqrt (mW2.getD p 0) + ADA_EPS)))
  let dW2 := s.dW.set p 0
  ⟨W2, dW2, mW2⟩

/-- The inner `for v_i in range(vec_dim)` loop of `cy_ag_update_2d`,
updating elements `row_ptr + 0 .. row_ptr + n - 1`. -/
def ag_inner_2d (fsqrt : ℚ → ℚ) (alpha : ℚ) (row_ptr : ℕ) (n : ℕ)
    (s : AGState) : AGState :=
  match n with
  | 0 => s
  | m + 1 => ag_elem fsqrt alpha (row_ptr + m) (ag_inner_2d fsqrt alpha row_ptr m s)

/-- `cy_ag_update_2d`: per-row sparse adaptive update.  Each selected
minibatch item `i = sp_idx[sp_i]` is mapped through the indirection
`row_key = row_idx[i]` and the whole row `row_key * vec_dim ..` is
updated. -/
def cy_ag_update_2d (fsqrt : ℚ → ℚ) (sp_idx row_idx : List ℕ) (alpha : ℚ)
    (vec_dim : ℕ) (s : AGState) : AGState :=
  sp_idx.foldl
    (fun s2 i => ag_inner_2d fsqrt alpha (row_idx.getD i 0 * vec_dim) vec_dim s2)
    s

/-- `cy_ag_update_1d`: per-scalar sparse adaptive update; same recurrence
applied to the single element `row_key = row_idx[i]`. -/
def cy_ag_update_1d (fsqrt : ℚ → ℚ) (sp_idx row_idx : List ℕ) (alpha : ℚ)
    (s : AGState) : AGState :=
  sp_idx.foldl (fun s2 i => ag_elem fsqrt alpha (row_idx.getD i 0) s2) s

/-! ### Scatter-accumulate operator (`cy_lut_bp`, lines 565-581) -/

structure LUTState where
  dLdY : List ℚ
  dW : List ℚ
  deriving DecidableEq

/-- One outer-loop iteration of `cy_lut_bp`: for minibatch item
`i = sp_idx[sp_i]` and destination row `j = row_idx[i]`, perform
`saxpy(&vec_dim, &ONEF, &dLdY[i*vec_dim], &ONE, &dW[j*vec_dim], &ONE)`.
`dLdY` is carried in the state because the source receives it through a
mutable pointer; the body never writes it. -/
def lut_step (row_idx : List ℕ) (vec_dim : ℕ) (i : ℕ) (s : LUTState) :
    LUTState :=
  let j := row_idx.getD i 0
  ⟨s.dLdY, saxpySeg vec_dim 1 s.dLdY (i * vec_dim) s.dW (j * vec_dim)⟩

/-- `cy_lut_bp`: lookup-table backprop / scatter-accumulate. -/
def cy_lut_bp (sp_idx row_idx : List ℕ) (vec_dim : ℕ) (s : LUTState) :
    LUTState :=
  sp_idx.foldl (fun s2 i => lut_step row_idx vec_dim i s2) s

/-! ### Precision-dispatch bootstrap (`init`, lines 600-633)

The source computes `d_res = dsdot(&size, x, &ONE, y, &ONE)` on the
length-1 vectors `x = [10.0]`, `y = [0.01]` and then reinterprets the raw
returned bits first as a double (`d_res`) and then as a float
(`p_res[0]`).  The bit reinterpretation is a machine-level operation; the
model receives the two interpreted readings as the rational inputs
`d_res` and `f_res`.  The result `some 0` stands for the source returning
`0` after binding the double-precision kernels (`cy_*_ff_bp0`), `some 1`
for returning `1` after binding the single-precision kernels
(`cy_*_ff_bp1`), and `none` for the fatal `assert False` branch. -/

def init_expected : ℚ := 1 / 10

def init (d_res f_res : ℚ) : Option ℕ :=
  if |d_res - init_expected| < 1 / 10000 then some 0
  else if |f_res - init_expected| < 1 / 10000 then some 1
  else none

/-! ## Claims -/

/-- C1: Two-table pairwise logistic kernel: for each selected row index
and each target slot the kernel computes the score
`y = dot(anchor_row, target_row) + b[c_key]` and
`exp_term = exp(-sign * y)`, adds `log(1 + exp_term)` to the scalar loss
accumulator `L[0]`, and, when gradients are requested (`do_grad = 1`),
computes `g = -sign * exp_term / (1 + exp_term)` and accumulates
`g * anchor_row` into the gradient row of the target, `g * target_row`
into the gradient row of the anchor, and `g` into the bias gradient of
the target.  (Stated for the per-slot body `w2v_slot`; the call
`cy_w2v_ff_bp0` is by definition the fold of these bodies over the
selected rows and slots.) -/
theorem w2v_ff_bp_slot_spec
    (fexp flog : ℚ → ℚ) (anc_keys pn_keys : List ℕ)
    (pn_sign Wa Wc b : List ℚ) (do_grad : ℤ) (vec_dim pn_size i j : ℕ)
    (s : W2VState) (sign y E g : ℚ) (akey ckey : ℕ)
    (hak : akey = anc_keys.getD i 0)
    (hck : ckey = pn_keys.getD (i * pn_size + j) 0)
    (hsign : sign = pn_sign.getD (i * pn_size + j) 0)
    (hy : y = dotSeg vec_dim Wa (akey * vec_dim) Wc (ckey * vec_dim) +
      b.getD ckey 0)
    (hE : E = fexp (-1 * sign * y))
    (hg : g = -1 * sign * (E / (1 + E)))
    (hL : 0 < s.L.length) :
    (w2v_slot fexp flog anc_keys pn_keys pn_sign Wa Wc b do_grad vec_dim
        pn_size i j s).L.getD 0 0 = s.L.getD 0 0 + flog (1 + E)
    ∧ (do_grad = 1 →
      (∀ v, v < vec_dim → ckey * vec_dim + vec_dim ≤ s.dWc.length →
        (w2v_slot fexp flog anc_keys pn_keys pn_sign Wa Wc b do_grad
            vec_dim pn_size i j s).dWc.getD (ckey * vec_dim + v) 0 =
          s.dWc.getD (ckey * vec_dim + v) 0 +
            g * Wa.getD (akey * vec_dim + v) 0)
      ∧ (∀ v, v < vec_dim → akey * vec_dim + vec_dim ≤ s.dWa.length →
        (w2v_slot fexp flog anc_keys pn_keys pn_sign Wa Wc b do_grad
            vec_dim pn_size i j s).dWa.getD (akey * vec_dim + v) 0 =
          s.dWa.getD (akey * vec_dim + v) 0 +
            g * Wc.getD (ckey * vec_dim + v) 0)
      ∧ (ckey < s.db.length →
        (w2v_slot fexp flog anc_keys pn_keys pn_sign Wa Wc b do_grad
            vec_dim pn_size i j s).db.getD ckey 0 =
          s.db.getD ckey 0 + g)) := by
  subst hak hck hsign hy hE hg
  by_cases hdg : do_grad = 1
  · simp only [w2v_slot, if_pos hdg]
    refine ⟨getD_set_self _ _ _ hL, fun _ => ⟨?_, ?_, ?_⟩⟩
    · intro v hv hlen
      exact saxpySeg_getD_in vec_dim _ Wa _ s.dWc _ v hv hlen
    · intro v hv hlen
      exact saxpySeg_getD_in vec_dim _ Wc _ s.dWa _ v hv hlen
    · intro hdb
      exact getD_set_self _ _ _ hdb
  · simp only [w2v_slot, if_neg hdg]
    exact ⟨getD_set_self _ _ _ hL, fun h => absurd h hdg⟩

/-- Witness for C1 at a concrete input: one anchor/target pair with
`vec_dim = 1`, `Wa = [2]`, `Wc = [3]`, zero bias, `sign = 1`, a mock
`exp` returning `1` and `log = id`; the bias-gradient entry becomes
`0 + g` with `g = -1/2`. -/
theorem w2v_ff_bp_slot_spec_witness :
    (w2v_slot (fun _ => 1) (fun q => q) [0] [0] [1] [2] [3] [0] 1 1 1 0 0
      ⟨[0], [0], [0], [0]⟩).db.getD 0 0 = 0 + -1 * 1 * (1 / (1 + 1)) := by
  have h := w2v_ff_bp_slot_spec (fun _ => 1) (fun q => q) [0] [0] [1] [2]
    [3] [0] 1 1 1 0 0 ⟨[0], [0], [0], [0]⟩ 1 6 1 (-1 * 1 * (1 / (1 + 1)))
    0 0 (by norm_num) (by norm_num) (by norm_num)
    (by norm_num [dotSeg]) (by norm_num) (by norm_num) (by norm_num)
  exact (h.2 rfl).2.2 (by norm_num)

/-- C4: Shared-table kernel sentinel skip: a slot whose key is at or above
`MAX_HSM_KEY` is a complete no-op (loss entry, both gradient accumulators
and the bias gradient keep their pre-call values), while a non-sentinel
slot records the loss `log(1 + exp(-sign * y))` with
`y = dot(X_row, W_row) + b[W_key]` and (when `do_grad = 1`) accumulates
the gradients by the same formula as the two-table kernel. -/
theorem nsl_ff_bp_sentinel_spec
    (fexp flog : ℚ → ℚ) (pn_keys : List ℕ) (pn_sign X W b : List ℚ)
    (do_grad : ℤ) (vec_dim pn_size Xk j : ℕ) (s : NSLState)
    (sign y E g : ℚ) (wkey : ℕ)
    (hwk : wkey = pn_keys.getD (Xk * pn_size + j) 0)
    (hsign : sign = pn_sign.getD (Xk * pn_size + j) 0)
    (hy : y = dotSeg vec_dim X (Xk * vec_dim) W (wkey * vec_dim) +
      b.getD wkey 0)
    (hE : E = fexp (-1 * sign * y))
    (hg : g = -1 * sign * (E / (1 + E))) :
    (MAX_HSM_KEY ≤ wkey →
      nsl_slot fexp flog pn_keys pn_sign X W b do_grad vec_dim pn_size
        Xk j s = s)
    ∧ (wkey < MAX_HSM_KEY →
      (Xk * pn_size + j < s.L.length →
        (nsl_slot fexp flog pn_keys pn_sign X W b do_grad vec_dim pn_size
            Xk j s).L.getD (Xk * pn_size + j) 0 = flog (1 + E))
      ∧ (do_grad = 1 →
        (∀ v, v < vec_dim → wkey * vec_dim + vec_dim ≤ s.dW.length →
          (nsl_slot fexp flog pn_keys pn_sign X W b do_grad vec_dim
              pn_size Xk j s).dW.getD (wkey * vec_dim + v) 0 =
            s.dW.getD (wkey * vec_dim + v) 0 +
              g * X.getD (Xk * vec_dim + v) 0)
        ∧ (∀ v, v < vec_dim → Xk * vec_dim + vec_dim ≤ s.dX.length →
          (nsl_slot fexp flog pn_keys pn_sign X W b do_grad vec_dim
              pn_size Xk j s).dX.getD (Xk * vec_dim + v) 0 =
            s.dX.getD (Xk * vec_dim + v) 0 +
              g * W.getD (wkey * vec_dim + v) 0)
        ∧ (wkey < s.db.length →
          (nsl_slot fexp flog pn_keys pn_sign X W b do_grad vec_dim
              pn_size Xk j s).db.getD wkey 0 = s.db.getD wkey 0 + g))) := by
  subst hwk hsign hy hE hg
  constructor
  · intro hsent
    simp only [nsl_slot, if_neg (Nat.not_lt.mpr hsent)]
  · intro hkey
    by_cases hdg : do_grad = 1
    · simp only [nsl_slot, if_pos hkey, if_pos hdg]
      refine ⟨fun hL => getD_set_self _ _ _ hL, fun _ => ⟨?_, ?_, ?_⟩⟩
      · intro v hv hlen
        exact saxpySeg_getD_in vec_dim _ X _ s.dW _ v hv hlen
      · intro v hv hlen
        exact saxpySeg_getD_in vec_dim _ W _ s.dX _ v hv hlen
      · intro hdb
        exact getD_set_self _ _ _ hdb
    · simp only [nsl_slot, if_pos hkey, if_neg hdg]
      exact ⟨fun hL => getD_set_self _ _ _ hL, fun h => absurd h hdg⟩

/-- Witness for C4: at a concrete input, the sentinel slot (key
`12345678`) leaves the state untouched, and a non-sentinel slot records
its loss entry. -/
theorem nsl_ff_bp_sentinel_spec_witness :
    (nsl_slot (fun _ => 1) (fun q => q) [12345678] [1] [2] [3] [0] 1 1 1
      0 0 ⟨[0], [0], [0], [7]⟩ = ⟨[0], [0], [0], [7]⟩)
    ∧ (nsl_slot (fun _ => 1) (fun q => q) [0] [1] [2] [3] [0] 0 1 1
      0 0 ⟨[0], [0], [0], [7]⟩).L.getD 0 0 = (fun q => q) (1 + 1) := by
  constructor
  · have h := nsl_ff_bp_sentinel_spec (fun _ => 1) (fun q => q) [12345678]
      [1] [2] [3] [0] 1 1 1 0 0 ⟨[0], [0], [0], [7]⟩ 1 0 1
      (-1 * 1 * (1 / (1 + 1))) 12345678 (by norm_num) (by norm_num)
      (by norm_num [dotSeg, MAX_HSM_KEY]) (by norm_num) (by norm_num)
    exact h.1 (by norm_num [MAX_HSM_KEY])
  · have h := nsl_ff_bp_sentinel_spec (fun _ => 1) (fun q => q) [0]
      [1] [2] [3] [0] 0 1 1 0 0 ⟨[0], [0], [0], [7]⟩ 1 6 1
      (-1 * 1 * (1 / (1 + 1))) 0 (by norm_num) (by norm_num)
      (by norm_num [dotSeg]) (by norm_num) (by norm_num)
    exact (h.2 (by norm_num [MAX_HSM_KEY])).1 (by norm_num)

/-- C5: Contrastive-ratio kernel forward pass: with constants `a = 1`,
`k = 1`, `c = 1/10`, slot 0 of an anchor row computes
`f_pos = exp(a * dot(x, w_pos) + b_pos)` and seeds the cache without
writing any loss or gradient; every slot `j ≥ 1` preserves the cache
(so `f_pos` is computed once at slot 0 and reused), and records
`loss_j = -log(f_pos / denom)` with
`f_neg_j = k * exp(a * dot(x, w_neg_j) + b_neg_j)` and
`denom = f_pos + f_neg_j + c`; after processing slots `0 .. m` the cache
still holds the slot-0 value, whatever it started as. -/
theorem acl_ff_bp_forward_spec
    (fexp flog : ℚ → ℚ) (pn_keys : List ℕ) (X W b : List ℚ)
    (do_grad : ℤ) (vec_dim pn_size Xk : ℕ) (Wk_p : ℕ) (f_p : ℚ)
    (hwkp : Wk_p = pn_keys.getD (Xk * pn_size) 0)
    (hfp : f_p = fexp (acl_a * dotSeg vec_dim X (Xk * vec_dim) W
      (Wk_p * vec_dim) + b.getD Wk_p 0)) :
    (∀ (cacc : ℕ × ℚ) (s : NSLState),
      acl_slot fexp flog pn_keys X W b do_grad vec_dim pn_size Xk 0
        (cacc, s) = ((Wk_p, f_p), s))
    ∧ (∀ j, j ≠ 0 → ∀ acc,
      (acl_slot fexp flog pn_keys X W b do_grad vec_dim pn_size Xk j
        acc).1 = acc.1)
    ∧ (∀ j, j ≠ 0 → ∀ (cacc : ℕ × ℚ) (s : NSLState),
      Xk * pn_size + j < s.L.length →
      (acl_slot fexp flog pn_keys X W b do_grad vec_dim pn_size Xk j
          (cacc, s)).2.L.getD (Xk * pn_size + j) 0 =
        -flog (cacc.2 / acl_denom acl_c cacc.2
          (acl_k * fexp (acl_a * dotSeg vec_dim X (Xk * vec_dim) W
            (pn_keys.getD (Xk * pn_size + j) 0 * vec_dim) +
            b.getD (pn_keys.getD (Xk * pn_size + j) 0) 0))))
    ∧ (∀ (m : ℕ) (acc0 : (ℕ × ℚ) × NSLState),
      ((List.range (m + 1)).foldl
        (fun acc j =>
          acl_slot fexp flog pn_keys X W b do_grad vec_dim pn_size Xk j
            acc) acc0).1 = (Wk_p, f_p))
    ∧ acl_a = 1 ∧ acl_k = 1 ∧ acl_c = 1 / 10 := by
  subst hwkp hfp
  have ha : ∀ (cacc : ℕ × ℚ) (s : NSLState),
      acl_slot fexp flog pn_keys X W b do_grad vec_dim pn_size Xk 0
        (cacc, s) = ((pn_keys.getD (Xk * pn_size) 0,
          fexp (acl_a * dotSeg vec_dim X (Xk * vec_dim) W
            (pn_keys.getD (Xk * pn_size) 0 * vec_dim) +
            b.getD (pn_keys.getD (Xk * pn_size) 0) 0)), s) := by
    intro cacc s
    simp [acl_slot]
  have hb : ∀ j, j ≠ 0 → ∀ acc,
      (acl_slot fexp flog pn_keys X W b do_grad vec_dim pn_size Xk j
        acc).1 = acc.1 := by
    intro j hj acc
    by_cases hdg : do_grad = 1 <;>
      simp [acl_slot, if_neg hj, hdg]
  refine ⟨ha, hb, ?_, ?_, rfl, rfl, rfl⟩
  · intro j hj cacc s hL
    by_cases hdg : do_grad = 1
    · simp only [acl_slot, if_neg hj, if_pos hdg]
      exact getD_set_self _ _ _ hL
    · simp only [acl_slot, if_neg hj, if_neg hdg]
      exact getD_set_self _ _ _ hL
  · intro m
    induction m with
    | zero =>
      intro acc0
      simp only [List.range_succ, List.range_zero, List.nil_append,
        List.foldl_cons, List.foldl_nil]
      exact congrArg Prod.fst (ha acc0.1 acc0.2)
    | succ n ih =>
      intro acc0
      rw [List.range_succ, List.foldl_append]
      simp only [List.foldl_cons, List.foldl_nil]
      rw [hb (n + 1) (Nat.succ_ne_zero n)]
      exact ih acc0

/-- Witness for C5: concrete two-slot anchor row with zero weights and a
mock `exp` returning `1`, `log = id`: the cache after slots 0 and 1 holds
the slot-0 pair `(0, 1)` even when it starts at junk `(5, 9)`, and slot 1
records the loss of the ratio with `f_pos = f_neg = 1`. -/
theorem acl_ff_bp_forward_spec_witness :
    (((List.range 2).foldl
      (fun acc j => acl_slot (fun _ => 1) (fun q => q) [0, 1] [0] [0, 0]
        [0, 0] 0 1 2 0 j acc) ((5, 9), ⟨[0], [0, 0], [0, 0], [3, 3]⟩)).1 =
      (0, 1))
    ∧ (acl_slot (fun _ => 1) (fun q => q) [0, 1] [0] [0, 0] [0, 0] 0 1 2 0
        1 ((0, 1), ⟨[0], [0, 0], [0, 0], [3, 3]⟩)).2.L.getD (0 * 2 + 1) 0 =
      -(((0 : ℕ), (1 : ℚ)).2 / acl_denom acl_c ((0 : ℕ), (1 : ℚ)).2
        (acl_k * (fun _ => (1 : ℚ))
          (acl_a * dotSeg 1 [0] (0 * 1) [0, 0]
            ([0, 1].getD (0 * 2 + 1) 0 * 1) +
            [0, 0].getD ([0, 1].getD (0 * 2 + 1) 0) 0))) := by
  have h := acl_ff_bp_forward_spec (fun _ => 1) (fun q => q) [0, 1] [0]
    [0, 0] [0, 0] 0 1 2 0 0 1 (by norm_num) (by norm_num [dotSeg])
  exact ⟨h.2.2.2.1 1 ((5, 9), ⟨[0], [0, 0], [0, 0], [3, 3]⟩),
    h.2.2.1 1 (by norm_num) (0, 1) ⟨[0], [0, 0], [0, 0], [3, 3]⟩
      (by norm_num)⟩

/-! Helper lemmas for the adaptive update. -/

theorem ag_elem_lengths (fsqrt : ℚ → ℚ) (alpha : ℚ) (p : ℕ) (s : AGState) :
    (ag_elem fsqrt alpha p s).W.length = s.W.length ∧
    (ag_elem fsqrt alpha p s).dW.length = s.dW.length ∧
    (ag_elem fsqrt alpha p s).mW.length = s.mW.length := by
  simp [ag_elem, List.length_set]

theorem ag_elem_frame (fsqrt : ℚ → ℚ) (alpha : ℚ) (p : ℕ) (s : AGState)
    (q : ℕ) (h : p ≠ q) :
    (ag_elem fsqrt alpha p s).W.getD q 0 = s.W.getD q 0 ∧
    (ag_elem fsqrt alpha p s).dW.getD q 0 = s.dW.getD q 0 ∧
    (ag_elem fsqrt alpha p s).mW.getD q 0 = s.mW.getD q 0 := by
  simp only [ag_elem]
  exact ⟨getD_set_ne _ _ _ _ h, getD_set_ne _ _ _ _ h, getD_set_ne _ _ _ _ h⟩

theorem ag_elem_getD_in (fsqrt : ℚ → ℚ) (alpha : ℚ) (p : ℕ) (s : AGState) :
    (p < s.mW.length →
      (ag_elem fsqrt alpha p s).mW.getD p 0 =
        ADA_RHO * s.mW.getD p 0 +
          (1 - ADA_RHO) * s.dW.getD p 0 * s.dW.getD p 0)
    ∧ (p < s.mW.length → p < s.W.length →
      (ag_elem fsqrt alpha p s).W.getD p 0 =
        s.W.getD p 0 - alpha * (s.dW.getD p 0 /
          (fsqrt (ADA_RHO * s.mW.getD p 0 +
            (1 - ADA_RHO) * s.dW.getD p 0 * s.dW.getD p 0) + ADA_EPS)))
    ∧ (p < s.dW.length → (ag_elem fsqrt alpha p s).dW.getD p 0 = 0) := by
  refine ⟨?_, ?_, ?_⟩
  · intro h
    simp only [ag_elem]
    exact getD_set_self _ _ _ h
  · intro hm hw
    simp only [ag_elem]
    rw [getD_set_self _ _ _ hw, getD_set_self _ _ _ hm]
  · intro h
    simp only [ag_elem]
    exact getD_set_self _ _ _ h

theorem ag_inner_2d_lengths (fsqrt : ℚ → ℚ) (alpha : ℚ) (row_ptr n : ℕ)
    (s : AGState) :
    (ag_inner_2d fsqrt alpha row_ptr n s).W.length = s.W.length ∧
    (ag_inner_2d fsqrt alpha row_ptr n s).dW.length = s.dW.length ∧
    (ag_inner_2d fsqrt alpha row_ptr n s).mW.length = s.mW.length := by
  induction n with
  | zero => exact ⟨rfl, rfl, rfl⟩
  | succ m ih =>
    have he := ag_elem_lengths fsqrt alpha (row_ptr + m)
      (ag_inner_2d fsqrt alpha row_ptr m s)
    exact ⟨he.1.trans ih.1, he.2.1.trans ih.2.1, he.2.2.trans ih.2.2⟩

theorem ag_inner_2d_frame (fsqrt : ℚ → ℚ) (alpha : ℚ) (row_ptr n : ℕ)
    (s : AGState) (q : ℕ) (h : ∀ u, u < n → row_ptr + u ≠ q) :
    (ag_inner_2d fsqrt alpha row_ptr n s).W.getD q 0 = s.W.getD q 0 ∧
    (ag_inner_2d fsqrt alpha row_ptr n s).dW.getD q 0 = s.dW.getD q 0 ∧
    (ag_inner_2d fsqrt alpha row_ptr n s).mW.getD q 0 = s.mW.getD q 0 := by
  induction n with
  | zero => exact ⟨rfl, rfl, rfl⟩
  | succ m ih =>
    have ihm := ih (fun u hu => h u (Nat.lt_succ_of_lt hu))
    have he := ag_elem_frame fsqrt alpha (row_ptr + m)
      (ag_inner_2d fsqrt alpha row_ptr m s) q (h m (Nat.lt_succ_self m))
    exact ⟨he.1.trans ihm.1, he.2.1.trans ihm.2.1, he.2.2.trans ihm.2.2⟩

theorem ag_inner_2d_getD_in (fsqrt : ℚ → ℚ) (alpha : ℚ) (row_ptr n v : ℕ)
    (s : AGState) (hv : v < n) (hmW : row_ptr + n ≤ s.mW.length)
    (hW : row_ptr + n ≤ s.W.length) (hdW : row_ptr + n ≤ s.dW.length) :
    (ag_inner_2d fsqrt alpha row_ptr n s).mW.getD (row_ptr + v) 0 =
      ADA_RHO * s.mW.getD (row_ptr + v) 0 +
        (1 - ADA_RHO) * s.dW.getD (row_ptr + v) 0 * s.dW.getD (row_ptr + v) 0
    ∧ (ag_inner_2d fsqrt alpha row_ptr n s).W.getD (row_ptr + v) 0 =
      s.W.getD (row_ptr + v) 0 - alpha * (s.dW.getD (row_ptr + v) 0 /
        (fsqrt (ADA_RHO * s.mW.getD (row_ptr + v) 0 +
          (1 - ADA_RHO) * s.dW.getD (row_ptr + v) 0 *
            s.dW.getD (row_ptr + v) 0) + ADA_EPS))
    ∧ (ag_inner_2d fsqrt alpha row_ptr n s).dW.getD (row_ptr + v) 0 = 0 := by
  induction n with
  | zero => omega
  | succ m ih =>
    rcases Nat.lt_succ_iff_lt_or_eq.mp hv with hlt | heq
    · have hfr := ag_elem_frame fsqrt alpha (row_ptr + m)
        (ag_inner_2d fsqrt alpha row_ptr m s) (row_ptr + v) (by omega)
      have ihm := ih hlt (by omega) (by omega) (by omega)
      exact ⟨hfr.2.2.trans ihm.1,
        hfr.1.trans ihm.2.1, hfr.2.1.trans ihm.2.2⟩
    · subst heq
      have hfr := ag_inner_2d_frame fsqrt alpha row_ptr v s (row_ptr + v)
        (fun u hu => by omega)
      have hlen := ag_inner_2d_lengths fsqrt alpha row_ptr v s
      have he := ag_elem_getD_in fsqrt alpha (row_ptr + v)
        (ag_inner_2d fsqrt alpha row_ptr v s)
      have hm2 : row_ptr + v <
          (ag_inner_2d fsqrt alpha row_ptr v s).mW.length := by
        rw [hlen.2.2]; omega
      have hw2 : row_ptr + v <
          (ag_inner_2d fsqrt alpha row_ptr v s).W.length := by
        rw [hlen.1]; omega
      have hd2 : row_ptr + v <
          (ag_inner_2d fsqrt alpha row_ptr v s).dW.length := by
        rw [hlen.2.1]; omega
      refine ⟨?_, ?_, ?_⟩
      · show (ag_elem fsqrt alpha (row_ptr + v)
          (ag_inner_2d fsqrt alpha row_ptr v s)).mW.getD (row_ptr + v) 0 = _
        rw [he.1 hm2, hfr.2.2, hfr.2.1]
      · show (ag_elem fsqrt alpha (row_ptr + v)
          (ag_inner_2d fsqrt alpha row_ptr v s)).W.getD (row_ptr + v) 0 = _
        rw [he.2.1 hm2 hw2, hfr.1, hfr.2.1, hfr.2.2]
      · show (ag_elem fsqrt alpha (row_ptr + v)
          (ag_inner_2d fsqrt alpha row_ptr v s)).dW.getD (row_ptr + v) 0 = _
        exact he.2.2 hd2

/-- C2: Sparse adaptive update, both variants: each addressed element `p`
(reached through `row_key = row_idx[i]` for a selected item `i`) is
updated by exactly `moment[p] = rho*moment[p] + (1-rho)*grad[p]^2`, then
`param[p] -= alpha * grad[p] / (sqrt(moment[p]) + eps)`, then
`grad[p] = 0`, with `rho = ADA_RHO = 98/100` and
`eps = ADA_EPS = 1/1000`; one call on each variant with a singleton index
set is exactly this per-element update (through the row indirection);
starting from `moment = 0` the new moment is `(1-rho) * g0^2`, the
gradient entry is zeroed, and a second update on an element whose
gradient is `0` leaves the parameter entry unchanged. -/
theorem ag_update_spec (fsqrt : ℚ → ℚ) (alpha m2 : ℚ) (row_idx : List ℕ)
    (i p row_ptr vec_dim v : ℕ) (s : AGState)
    (hm2 : m2 = ADA_RHO * s.mW.getD p 0 +
      (1 - ADA_RHO) * s.dW.getD p 0 * s.dW.getD p 0) :
    ((p < s.mW.length → (ag_elem fsqrt alpha p s).mW.getD p 0 = m2)
     ∧ (p < s.mW.length → p < s.W.length →
        (ag_elem fsqrt alpha p s).W.getD p 0 =
          s.W.getD p 0 - alpha * (s.dW.getD p 0 / (fsqrt m2 + ADA_EPS)))
     ∧ (p < s.dW.length → (ag_elem fsqrt alpha p s).dW.getD p 0 = 0))
    ∧ (p = row_ptr + v → v < vec_dim →
        row_ptr + vec_dim ≤ s.mW.length → row_ptr + vec_dim ≤ s.W.length →
        row_ptr + vec_dim ≤ s.dW.length →
        (ag_inner_2d fsqrt alpha row_ptr vec_dim s).mW.getD p 0 = m2
        ∧ (ag_inner_2d fsqrt alpha row_ptr vec_dim s).W.getD p 0 =
            s.W.getD p 0 - alpha * (s.dW.getD p 0 / (fsqrt m2 + ADA_EPS))
        ∧ (ag_inner_2d fsqrt alpha row_ptr vec_dim s).dW.getD p 0 = 0)
    ∧ cy_ag_update_1d fsqrt [i] row_idx alpha s =
        ag_elem fsqrt alpha (row_idx.getD i 0) s
    ∧ cy_ag_update_2d fsqrt [i] row_idx alpha vec_dim s =
        ag_inner_2d fsqrt alpha (row_idx.getD i 0 * vec_dim) vec_dim s
    ∧ ADA_RHO = 98 / 100 ∧ ADA_EPS = 1 / 1000
    ∧ (s.mW.getD p 0 = 0 →
        m2 = (1 - ADA_RHO) * (s.dW.getD p 0 * s.dW.getD p 0))
    ∧ (s.dW.getD p 0 = 0 → p < s.W.length →
        (ag_elem fsqrt alpha p s).W.getD p 0 = s.W.getD p 0) := by
  subst hm2
  refine ⟨ag_elem_getD_in fsqrt alpha p s, ?_, rfl, rfl, rfl, rfl, ?_, ?_⟩
  · intro hp hv hm hw hd
    subst hp
    exact ag_inner_2d_getD_in fsqrt alpha row_ptr vec_dim v s hv hm hw hd
  · intro h0
    rw [h0]; ring
  · intro h0 hw
    simp only [ag_elem, h0]
    rw [getD_set_self _ _ _ hw]
    simp

/-- Witness for C2: one element, `W = [4]`, `dW = [6]`, `mW = [0]`,
`alpha = 1`, mock `sqrt = id`: the moment becomes
`(1-rho)*36 = 18/25`, and a second update with zero gradient leaves the
parameter unchanged. -/
theorem ag_update_spec_witness :
    ((ag_elem (fun q => q) 1 0 ⟨[4], [6], [0]⟩).mW.getD 0 0 =
      ADA_RHO * 0 + (1 - ADA_RHO) * 6 * 6)
    ∧ (ag_elem (fun q => q) 1 0 ⟨[4], [0], [9]⟩).W.getD 0 0 = 4 := by
  constructor
  · have h := ag_update_spec (fun q => q) 1
      (ADA_RHO * 0 + (1 - ADA_RHO) * 6 * 6) [0] 0 0 0 1 0 ⟨[4], [6], [0]⟩
      (by norm_num)
    exact h.1.1 (by norm_num)
  · have h := ag_update_spec (fun q => q) 1
      (ADA_RHO * 9 + (1 - ADA_RHO) * 0 * 0) [0] 0 0 0 1 0 ⟨[4], [0], [9]⟩
      (by norm_num)
    exact h.2.2.2.2.2.2.2 (by norm_num) (by norm_num)

/-! Helper lemmas for the scatter-accumulate operator. -/

theorem lut_step_getD (row_idx : List ℕ) (vec_dim i v : ℕ) (s : LUTState)
    (hv : v < vec_dim)
    (hlen : row_idx.getD i 0 * vec_dim + vec_dim ≤ s.dW.length) :
    (lut_step row_idx vec_dim i s).dW.getD
        (row_idx.getD i 0 * vec_dim + v) 0 =
      s.dW.getD (row_idx.getD i 0 * vec_dim + v) 0 +
        s.dLdY.getD (i * vec_dim + v) 0 := by
  show (saxpySeg vec_dim 1 s.dLdY (i * vec_dim) s.dW
    (row_idx.getD i 0 * vec_dim)).getD _ 0 = _
  rw [saxpySeg_getD_in vec_dim 1 s.dLdY (i * vec_dim) s.dW
    (row_idx.getD i 0 * vec_dim) v hv hlen, one_mul]

theorem cy_lut_bp_dLdY_const (sp_idx row_idx : List ℕ) (vec_dim : ℕ)
    (s : LUTState) : (cy_lut_bp sp_idx row_idx vec_dim s).dLdY = s.dLdY := by
  induction sp_idx generalizing s with
  | nil => rfl
  | cons a l ih => exact (ih (lut_step row_idx vec_dim a s)).trans rfl

/-- C9: Scatter-accumulate operator: for a selected minibatch item `i`,
row `row_idx[i]` of `dW` is incremented element-wise by row `i` of
`dLdY`; the `dLdY` buffer is left completely unchanged by the whole call;
and two items sharing the same `row_idx` entry contribute the sum of both
rows (accumulation, never overwrite). -/
theorem lut_bp_spec (sp_idx row_idx : List ℕ) (vec_dim i i1 i2 j v : ℕ)
    (s : LUTState) :
    (v < vec_dim → row_idx.getD i 0 * vec_dim + vec_dim ≤ s.dW.length →
      (lut_step row_idx vec_dim i s).dW.getD
          (row_idx.getD i 0 * vec_dim + v) 0 =
        s.dW.getD (row_idx.getD i 0 * vec_dim + v) 0 +
          s.dLdY.getD (i * vec_dim + v) 0)
    ∧ (lut_step row_idx vec_dim i s).dLdY = s.dLdY
    ∧ (cy_lut_bp sp_idx row_idx vec_dim s).dLdY = s.dLdY
    ∧ (row_idx.getD i1 0 = j → row_idx.getD i2 0 = j → v < vec_dim →
        j * vec_dim + vec_dim ≤ s.dW.length →
        (cy_lut_bp [i1, i2] row_idx vec_dim s).dW.getD
            (j * vec_dim + v) 0 =
          s.dW.getD (j * vec_dim + v) 0 +
            s.dLdY.getD (i1 * vec_dim + v) 0 +
            s.dLdY.getD (i2 * vec_dim + v) 0) := by
  refine ⟨fun hv hlen => lut_step_getD row_idx vec_dim i v s hv hlen, rfl,
    cy_lut_bp_dLdY_const sp_idx row_idx vec_dim s, ?_⟩
  intro hj1 hj2 hv hlen
  show (lut_step row_idx vec_dim i2
    (lut_step row_idx vec_dim i1 s)).dW.getD (j * vec_dim + v) 0 = _
  have hlen1 : (lut_step row_idx vec_dim i1 s).dW.length = s.dW.length :=
    saxpySeg_length _ _ _ _ _ _
  have h2 := lut_step_getD row_idx vec_dim i2 v
    (lut_step row_idx vec_dim i1 s) hv (by rw [hlen1, hj2]; exact hlen)
  rw [hj2] at h2
  have h1 := lut_step_getD row_idx vec_dim i1 v s hv
    (by rw [hj1]; exact hlen)
  rw [hj1] at h1
  rw [h2, h1]
  rfl

/-- Witness for C9: two minibatch items both mapped to destination row 0
accumulate `1 + 10 + 20 = 31`. -/
theorem lut_bp_spec_witness :
    (cy_lut_bp [0, 1] [0, 0] 1 ⟨[10, 20], [1]⟩).dW.getD (0 * 1 + 0) 0 =
      ([1] : List ℚ).getD (0 * 1 + 0) 0 +
        ([10, 20] : List ℚ).getD (0 * 1 + 0) 0 +
        ([10, 20] : List ℚ).getD (1 * 1 + 0) 0 :=
  (lut_bp_spec [0, 1] [0, 0] 1 0 0 1 0 0 ⟨[10, 20], [1]⟩).2.2.2
    (by norm_num) (by norm_num) (by norm_num) (by norm_num)

/-- C3: Precision-dispatch bootstrap: the self-test dot product of the
length-1 vectors `[10.0]` and `[0.01]` equals the expected `0.1`; if the
reading of the raw result as a double is within `1/10000` of the expected
value the bootstrap selects the double-precision variants (`some 0`),
otherwise if the reading as a float is within tolerance it selects the
single-precision variants (`some 1`), and if neither matches,
initialization fails (`none`).  The source runs this selection once at
module load (`DO_INIT = init()`) and never again. -/
theorem init_precision_dispatch (d f : ℚ) :
    (|d - init_expected| < 1 / 10000 → init d f = some 0)
    ∧ (¬ |d - init_expected| < 1 / 10000 →
        |f - init_expected| < 1 / 10000 → init d f = some 1)
    ∧ (¬ |d - init_expected| < 1 / 10000 →
        ¬ |f - init_expected| < 1 / 10000 → init d f = none)
    ∧ dotSeg 1 [10] 0 [1 / 100] 0 = init_expected := by
  refine ⟨?_, ?_, ?_, by norm_num [dotSeg, init_expected]⟩
  · intro h1
    simp only [init]
    rw [if_pos h1]
  · intro h1 h2
    simp only [init]
    rw [if_neg h1, if_pos h2]
  · intro h1 h2
    simp only [init]
    rw [if_neg h1, if_neg h2]

/-- Witness for C3: concrete readings exercising all three branches. -/
theorem init_precision_dispatch_witness :
    init (1 / 10) 5 = some 0 ∧ init 5 (1 / 10) = some 1 ∧
      init 5 5 = none :=
  ⟨(init_precision_dispatch (1 / 10) 5).1
     (by norm_num [init_expected, abs_lt]),
   (init_precision_dispatch 5 (1 / 10)).2.1
     (by norm_num [init_expected, abs_lt])
     (by norm_num [init_expected, abs_lt]),
   (init_precision_dispatch 5 5).2.2.1
     (by norm_num [init_expected, abs_lt])
     (by norm_num [init_expected, abs_lt])⟩

/-- C10: Sign-matrix noninterference of the contrastive-ratio kernel:
two invocations (of either precision variant) whose inputs differ only in
the target-sign matrix produce identical mutations of the loss
accumulator and of `dX`, `dW`, `db`, because the kernel never reads the
sign matrix. -/
theorem acl_sign_noninterference (fexp flog : ℚ → ℚ)
    (sp_idx pn_keys : List ℕ) (pn_sign1 pn_sign2 X W b : List ℚ)
    (do_grad : ℤ) (vec_dim pn_size : ℕ) (s : NSLState) :
    cy_acl_ff_bp0 fexp flog sp_idx pn_keys pn_sign1 X W b do_grad vec_dim
        pn_size s =
      cy_acl_ff_bp0 fexp flog sp_idx pn_keys pn_sign2 X W b do_grad
        vec_dim pn_size s
    ∧ cy_acl_ff_bp1 fexp flog sp_idx pn_keys pn_sign1 X W b do_grad
        vec_dim pn_size s =
      cy_acl_ff_bp1 fexp flog sp_idx pn_keys pn_sign2 X W b do_grad
        vec_dim pn_size s :=
  ⟨rfl, rfl⟩

/-- C7 counterexample: the claimed identity `g_pos + g_neg = -a` fails on
the code.  At the concrete input `sp_idx = [0]`, `pn_keys = [0, 1]`, all
weights and biases zero (so both scores are `0` and, for any `exp`
primitive with `exp 0 = 1`, `f_pos = f_neg = 1`, `denom = 21/10`), the
kernel applies the coefficients `g_pos = -11/21` and `g_neg = 10/21`
(visible in the bias-gradient accumulator with `a = 1`), whose sum is
`-1/21 ≠ -1 = -a` — far outside any floating tolerance. -/
theorem acl_grad_identity_claim_false :
    (cy_acl_ff_bp0 (fun _ => 1) (fun q => q) [0] [0, 1] [1, 1] [0] [0, 0]
      [0, 0] 1 1 2 ⟨[0], [0, 0], [0, 0], [0, 0]⟩).db =
      [-(11 / 21), 10 / 21]
    ∧ acl_g_yp acl_a acl_c 1 (acl_denom acl_c 1 1) +
        acl_g_yn acl_a 1 (acl_denom acl_c 1 1) = -(1 / 21)
    ∧ acl_g_yp acl_a acl_c 1 (acl_denom acl_c 1 1) +
        acl_g_yn acl_a 1 (acl_denom acl_c 1 1) ≠ -acl_a := by
  refine ⟨?_, by norm_num [acl_g_yp, acl_g_yn, acl_denom, acl_a, acl_c],
    by norm_num [acl_g_yp, acl_g_yn, acl_denom, acl_a, acl_c]⟩
  show (((List.range 2).foldl
    (fun acc j => acl_slot (fun _ => 1) (fun q => q) [0, 1] [0] [0, 0]
      [0, 0] 1 1 2 0 j acc)
    ((0, 0), ⟨[0], [0, 0], [0, 0], [0, 0]⟩)).2 : NSLState).db = _
  norm_num [List.range_succ, acl_slot, acl_denom, acl_g_yp, acl_g_yn,
    acl_g_bp, acl_g_bn, acl_a, acl_k, acl_c, dotSeg, saxpySeg]

/-- C7 (amended): for every anchor row and negative slot, the gradient
coefficients applied by the kernel satisfy
`g_pos + g_neg = -a*c/denom` (with `denom = f_pos + f_neg + c`), the
correct gradient identity of the ratio loss with offset `c`; the claimed
`-a` would require `c = 0`, but the code uses `c = 1/10`. -/
theorem acl_grad_ratio_identity (a c f_p f_n : ℚ)
    (h : acl_denom c f_p f_n ≠ 0) :
    acl_g_yp a c f_n (acl_denom c f_p f_n) +
      acl_g_yn a f_n (acl_denom c f_p f_n) =
      -(a * c) / acl_denom c f_p f_n := by
  unfold acl_g_yp acl_g_yn acl_denom at *
  field_simp
  ring

/-- Witness for the amended C7 at the counterexample input values. -/
theorem acl_grad_ratio_identity_witness :
    acl_g_yp 1 (1 / 10) 1 (acl_denom (1 / 10) 1 1) +
      acl_g_yn 1 1 (acl_denom (1 / 10) 1 1) =
      -(1 * (1 / 10)) / acl_denom (1 / 10) 1 1 :=
  acl_grad_ratio_identity 1 (1 / 10) 1 1 (by norm_num [acl_denom])

/-! Helper lemmas for loss accumulation. -/

theorem foldl_invariant {α β : Type} (f : β → α → β) (P : β → Prop)
    (h : ∀ b a, P b → P (f b a)) (l : List α) (b : β) (hb : P b) :
    P (l.foldl f b) := by
  induction l generalizing b with
  | nil => exact hb
  | cons x xs ih => exact ih (f b x) (h b x hb)

theorem foldl_getD_add {St : Type} (step : St → ℕ → St) (get : St → ℚ)
    (P : St → Prop) (term : ℕ → ℚ)
    (hP : ∀ s i, P s → P (step s i))
    (hg : ∀ s i, P s → get (step s i) = get s + term i) :
    ∀ (l : List ℕ) (s : St), P s →
      get (l.foldl step s) = get s + (l.map term).sum := by
  intro l
  induction l with
  | nil => intro s _; simp
  | cons a t ih =>
    intro s hs
    simp only [List.foldl_cons, List.map_cons, List.sum_cons]
    rw [ih (step s a) (hP s a hs), hg s a hs]
    ring

theorem w2v_slot_L_length (fexp flog : ℚ → ℚ) (anc_keys pn_keys : List ℕ)
    (pn_sign Wa Wc b : List ℚ) (do_grad : ℤ) (vec_dim pn_size i j : ℕ)
    (s : W2VState) :
    (w2v_slot fexp flog anc_keys pn_keys pn_sign Wa Wc b do_grad vec_dim
      pn_size i j s).L.length = s.L.length := by
  by_cases hdg : do_grad = 1 <;>
    simp [w2v_slot, hdg, List.length_set]

theorem w2v_slot_L0 (fexp flog : ℚ → ℚ) (anc_keys pn_keys : List ℕ)
    (pn_sign Wa Wc b : List ℚ) (do_grad : ℤ) (vec_dim pn_size i j : ℕ)
    (s : W2VState) (hL : 0 < s.L.length) :
    (w2v_slot fexp flog anc_keys pn_keys pn_sign Wa Wc b do_grad vec_dim
        pn_size i j s).L.getD 0 0 =
      s.L.getD 0 0 + w2v_loss_term fexp flog anc_keys pn_keys pn_sign Wa
        Wc b vec_dim pn_size i j := by
  by_cases hdg : do_grad = 1
  · simp only [w2v_slot, if_pos hdg]
    exact getD_set_self _ _ _ hL
  · simp only [w2v_slot, if_neg hdg]
    exact getD_set_self _ _ _ hL

theorem w2v_row_L0 (fexp flog : ℚ → ℚ) (anc_keys pn_keys : List ℕ)
    (pn_sign Wa Wc b : List ℚ) (do_grad : ℤ) (vec_dim pn_size i : ℕ)
    (s : W2VState) (hL : 0 < s.L.length) :
    (w2v_row fexp flog anc_keys pn_keys pn_sign Wa Wc b do_grad vec_dim
        pn_size i s).L.getD 0 0 =
      s.L.getD 0 0 + ((List.range pn_size).map (fun j =>
        w2v_loss_term fexp flog anc_keys pn_keys pn_sign Wa Wc b vec_dim
          pn_size i j)).sum := by
  exact foldl_getD_add
    (fun s2 j => w2v_slot fexp flog anc_keys pn_keys pn_sign Wa Wc b
      do_grad vec_dim pn_size i j s2)
    (fun s2 => s2.L.getD 0 0)
    (fun s2 => s2.L.length = s.L.length)
    (fun j => w2v_loss_term fexp flog anc_keys pn_keys pn_sign Wa Wc b
      vec_dim pn_size i j)
    (fun s2 j h => (w2v_slot_L_length fexp flog anc_keys pn_keys pn_sign
      Wa Wc b do_grad vec_dim pn_size i j s2).trans h)
    (fun s2 j h => w2v_slot_L0 fexp flog anc_keys pn_keys pn_sign Wa Wc b
      do_grad vec_dim pn_size i j s2 (h ▸ hL))
    (List.range pn_size) s rfl

theorem w2v_row_L_length (fexp flog : ℚ → ℚ) (anc_keys pn_keys : List ℕ)
    (pn_sign Wa Wc b : List ℚ) (do_grad : ℤ) (vec_dim pn_size i : ℕ)
    (s : W2VState) :
    (w2v_row fexp flog anc_keys pn_keys pn_sign Wa Wc b do_grad vec_dim
      pn_size i s).L.length = s.L.length :=
  foldl_invariant _ (fun s2 => s2.L.length = s.L.length)
    (fun s2 j h => (w2v_slot_L_length fexp flog anc_keys pn_keys pn_sign
      Wa Wc b do_grad vec_dim pn_size i j s2).trans h)
    (List.range pn_size) s rfl

/-- C6 (amended): the two-table kernel accumulates: the post-call scalar
loss entry `L[0]` equals its pre-call value plus the total of the
contributions of the call.  The shared-table and contrastive-ratio
kernels do NOT accumulate: each processed slot of their loss matrix is
overwritten with the loss value of this call (independent of the
pre-call entry), all untouched entries keeping their pre-call values
(sentinel slots and slot 0 of the contrastive kernel touch nothing). -/
theorem loss_accumulation_semantics (fexp flog : ℚ → ℚ)
    (sp_idx anc_keys pn_keys : List ℕ)
    (pn_sign Wa Wc b X W b2 : List ℚ) (do_grad : ℤ)
    (vec_dim pn_size Xk j : ℕ) (sw : W2VState) (sn : NSLState)
    (cacc : ℕ × ℚ) (sa : NSLState) (hLw : 0 < sw.L.length) :
    (cy_w2v_ff_bp0 fexp flog sp_idx anc_keys pn_keys pn_sign Wa Wc b
        do_grad vec_dim pn_size sw).L.getD 0 0 =
      sw.L.getD 0 0 + w2v_loss_total fexp flog sp_idx anc_keys pn_keys
        pn_sign Wa Wc b vec_dim pn_size
    ∧ (pn_keys.getD (Xk * pn_size + j) 0 < MAX_HSM_KEY →
        Xk * pn_size + j < sn.L.length →
        (nsl_slot fexp flog pn_keys pn_sign X W b2 do_grad vec_dim
            pn_size Xk j sn).L.getD (Xk * pn_size + j) 0 =
          nsl_loss_term fexp flog pn_keys pn_sign X W b2 vec_dim pn_size
            Xk j)
    ∧ (∀ q, q ≠ Xk * pn_size + j →
        (nsl_slot fexp flog pn_keys pn_sign X W b2 do_grad vec_dim
          pn_size Xk j sn).L.getD q 0 = sn.L.getD q 0)
    ∧ (j ≠ 0 → Xk * pn_size + j < sa.L.length →
        (acl_slot fexp flog pn_keys X W b2 do_grad vec_dim pn_size Xk j
            (cacc, sa)).2.L.getD (Xk * pn_size + j) 0 =
          -flog (cacc.2 / acl_denom acl_c cacc.2
            (acl_k * fexp (acl_a * dotSeg vec_dim X (Xk * vec_dim) W
              (pn_keys.getD (Xk * pn_size + j) 0 * vec_dim) +
              b2.getD (pn_keys.getD (Xk * pn_size + j) 0) 0))))
    ∧ (∀ q, q ≠ Xk * pn_size + j →
        (acl_slot fexp flog pn_keys X W b2 do_grad vec_dim pn_size Xk j
          (cacc, sa)).2.L.getD q 0 = sa.L.getD q 0)
    ∧ (j = 0 →
        (acl_slot fexp flog pn_keys X W b2 do_grad vec_dim pn_size Xk j
          (cacc, sa)).2.L = sa.L) := by
  refine ⟨?_, ?_, ?_, ?_, ?_, ?_⟩
  · exact foldl_getD_add
      (fun s2 i => w2v_row fexp flog anc_keys pn_keys pn_sign Wa Wc b
        do_grad vec_dim pn_size i s2)
      (fun s2 => s2.L.getD 0 0)
      (fun s2 => s2.L.length = sw.L.length)
      (fun i => ((List.range pn_size).map (fun j2 =>
        w2v_loss_term fexp flog anc_keys pn_keys pn_sign Wa Wc b vec_dim
          pn_size i j2)).sum)
      (fun s2 i h => (w2v_row_L_length fexp flog anc_keys pn_keys pn_sign
        Wa Wc b do_grad vec_dim pn_size i s2).trans h)
      (fun s2 i h => w2v_row_L0 fexp flog anc_keys pn_keys pn_sign Wa Wc
        b do_grad vec_dim pn_size i s2 (h ▸ hLw))
      sp_idx sw rfl
  · intro hkey hlen
    by_cases hdg : do_grad = 1
    · simp only [nsl_slot, if_pos hkey, if_pos hdg]
      exact getD_set_self _ _ _ hlen
    · simp only [nsl_slot, if_pos hkey, if_neg hdg]
      exact getD_set_self _ _ _ hlen
  · intro q hq
    by_cases hkey : pn_keys.getD (Xk * pn_size + j) 0 < MAX_HSM_KEY
    · by_cases hdg : do_grad = 1
      · simp only [nsl_slot, if_pos hkey, if_pos hdg]
        exact getD_set_ne _ _ _ _ (fun h => hq h.symm)
      · simp only [nsl_slot, if_pos hkey, if_neg hdg]
        exact getD_set_ne _ _ _ _ (fun h => hq h.symm)
    · simp only [nsl_slot, if_neg hkey]
  · intro hj hlen
    by_cases hdg : do_grad = 1
    · simp only [acl_slot, if_neg hj, if_pos hdg]
      exact getD_set_self _ _ _ hlen
    · simp only [acl_slot, if_neg hj, if_neg hdg]
      exact getD_set_self _ _ _ hlen
  · intro q hq
    by_cases hj : j = 0
    · simp only [acl_slot, if_pos hj]
    · by_cases hdg : do_grad = 1
      · simp only [acl_slot, if_neg hj, if_pos hdg]
        exact getD_set_ne _ _ _ _ (fun h => hq h.symm)
      · simp only [acl_slot, if_neg hj, if_neg hdg]
        exact getD_set_ne _ _ _ _ (fun h => hq h.symm)
  · intro hj
    simp only [acl_slot, if_pos hj]

/-- Witness for the amended C6: one two-table call starting from a loss
accumulator holding `5` adds its total contribution on top of the `5`. -/
theorem loss_accumulation_semantics_witness :
    (cy_w2v_ff_bp0 (fun _ => 1) (fun q => q) [0] [0] [0] [1] [0] [0] [0]
      0 1 1 ⟨[0], [0], [0], [5]⟩).L.getD 0 0 =
      (⟨[0], [0], [0], [5]⟩ : W2VState).L.getD 0 0 +
        w2v_loss_total (fun _ => 1) (fun q => q) [0] [0] [0] [1] [0] [0]
          [0] 1 1 :=
  (loss_accumulation_semantics (fun _ => 1) (fun q => q) [0] [0] [0] [1]
    [0] [0] [0] [0] [0] [0] 0 1 1 0 0 ⟨[0], [0], [0], [5]⟩
    ⟨[0], [0], [0], [5]⟩ (0, 1) ⟨[0], [0], [0], [5]⟩ (by norm_num)).1

/-- C6 counterexample: the claim "post-call loss accumulator equals the
pre-call contents plus the contributions of the call; no kernel
overwrites previously accumulated loss values" is false for the
shared-table kernel.  With a pre-call loss entry `L[0] = 5` and a call
whose (mocked, `log` returning `0`) loss contribution is `0`, the
post-call entry is the contribution `0`, not `5 + 0 = 5`: the kernel
overwrote the accumulated value. -/
theorem loss_accumulator_claim_false :
    (cy_nsl_ff_bp0 (fun _ => 0) (fun _ => 0) [0] [0] [1] [0] [0] [0] 0 1
      1 ⟨[0], [0], [0], [5]⟩).L = [0]
    ∧ nsl_loss_term (fun _ => 0) (fun _ => 0) [0] [1] [0] [0] [0] 1 1 0 0
      = 0
    ∧ (0 : ℚ) ≠ 5 + 0 := by
  refine ⟨?_, rfl, by norm_num⟩
  show (nsl_slot (fun _ => 0) (fun _ => 0) [0] [1] [0] [0] [0] 0 1 1 0 0
    ⟨[0], [0], [0], [5]⟩).L = [0]
  norm_num [nsl_slot, MAX_HSM_KEY]

/-! Helper definitions and lemmas for the do_grad gating claim. -/

/-- The gradient coefficient `g = neg_label * (exp_pns_y / (1 + exp_pns_y))`
computed by the body of `cy_w2v_ff_bp0`. -/
def w2v_g_term (fexp : ℚ → ℚ) (anc_keys pn_keys : List ℕ)
    (pn_sign Wa Wc b : List ℚ) (vec_dim pn_size i j : ℕ) : ℚ :=
  (-1 * pn_sign.getD (i * pn_size + j) 0) *
    (fexp ((-1 * pn_sign.getD (i * pn_size + j) 0) *
        (dotSeg vec_dim Wa (anc_keys.getD i 0 * vec_dim) Wc
          (pn_keys.getD (i * pn_size + j) 0 * vec_dim) +
         b.getD (pn_keys.getD (i * pn_size + j) 0) 0)) /
     (1 + fexp ((-1 * pn_sign.getD (i * pn_size + j) 0) *
        (dotSeg vec_dim Wa (anc_keys.getD i 0 * vec_dim) Wc
          (pn_keys.getD (i * pn_size + j) 0 * vec_dim) +
         b.getD (pn_keys.getD (i * pn_size + j) 0) 0))))

/-- The gradient coefficient computed by the body of `cy_nsl_ff_bp0`. -/
def nsl_g_term (fexp : ℚ → ℚ) (pn_keys : List ℕ) (pn_sign X W b : List ℚ)
    (vec_dim pn_size Xk j : ℕ) : ℚ :=
  (-1 * pn_sign.getD (Xk * pn_size + j) 0) *
    (fexp ((-1 * pn_sign.getD (Xk * pn_size + j) 0) *
        (dotSeg vec_dim X (Xk * vec_dim) W
          (pn_keys.getD (Xk * pn_size + j) 0 * vec_dim) +
         b.getD (pn_keys.getD (Xk * pn_size + j) 0) 0)) /
     (1 + fexp ((-1 * pn_sign.getD (Xk * pn_size + j) 0) *
        (dotSeg vec_dim X (Xk * vec_dim) W
          (pn_keys.getD (Xk * pn_size + j) 0 * vec_dim) +
         b.getD (pn_keys.getD (Xk * pn_size + j) 0) 0))))

theorem w2v_slot_grads_const (fexp flog : ℚ → ℚ)
    (anc_keys pn_keys : List ℕ) (pn_sign Wa Wc b : List ℚ) (do_grad : ℤ)
    (vec_dim pn_size i j : ℕ) (s : W2VState) (hdg : do_grad ≠ 1) :
    (w2v_slot fexp flog anc_keys pn_keys pn_sign Wa Wc b do_grad vec_dim
      pn_size i j s).dWa = s.dWa
    ∧ (w2v_slot fexp flog anc_keys pn_keys pn_sign Wa Wc b do_grad
      vec_dim pn_size i j s).dWc = s.dWc
    ∧ (w2v_slot fexp flog anc_keys pn_keys pn_sign Wa Wc b do_grad
      vec_dim pn_size i j s).db = s.db := by
  simp [w2v_slot, hdg]

theorem nsl_slot_grads_const (fexp flog : ℚ → ℚ) (pn_keys : List ℕ)
    (pn_sign X W b : List ℚ) (do_grad : ℤ) (vec_dim pn_size Xk j : ℕ)
    (s : NSLState) (hdg : do_grad ≠ 1) :
    (nsl_slot fexp flog pn_keys pn_sign X W b do_grad vec_dim pn_size Xk
      j s).dX = s.dX
    ∧ (nsl_slot fexp flog pn_keys pn_sign X W b do_grad vec_dim pn_size
      Xk j s).dW = s.dW
    ∧ (nsl_slot fexp flog pn_keys pn_sign X W b do_grad vec_dim pn_size
      Xk j s).db = s.db := by
  by_cases hkey : pn_keys.getD (Xk * pn_size + j) 0 < MAX_HSM_KEY
  · simp only [nsl_slot, if_pos hkey, if_neg hdg]
    exact ⟨trivial, trivial, trivial⟩
  · simp only [nsl_slot, if_neg hkey]
    exact ⟨trivial, trivial, trivial⟩

theorem acl_slot_grads_const (fexp flog : ℚ → ℚ) (pn_keys : List ℕ)
    (X W b : List ℚ) (do_grad : ℤ) (vec_dim pn_size Xk j : ℕ)
    (acc : (ℕ × ℚ) × NSLState) (hdg : do_grad ≠ 1) :
    (acl_slot fexp flog pn_keys X W b do_grad vec_dim pn_size Xk j
      acc).2.dX = acc.2.dX
    ∧ (acl_slot fexp flog pn_keys X W b do_grad vec_dim pn_size Xk j
      acc).2.dW = acc.2.dW
    ∧ (acl_slot fexp flog pn_keys X W b do_grad vec_dim pn_size Xk j
      acc).2.db = acc.2.db := by
  by_cases hj : j = 0
  · simp only [acl_slot, if_pos hj]
    exact ⟨trivial, trivial, trivial⟩
  · simp only [acl_slot, if_neg hj, if_neg hdg]
    exact ⟨trivial, trivial, trivial⟩

/-- C8 (amended): the gradient branch of every kernel is gated by the
test `do_grad == 1`, not by "nonzero": for any `do_grad ≠ 1` (this
includes `0` but also every other nonzero value) a full call of each
forward/backward kernel leaves every gradient accumulator unchanged,
computing loss only; when `do_grad = 1` the per-slot bodies perform the
gradient mutations (shown here for the bias-gradient accumulators, whose
increments are the per-slot coefficients). -/
theorem do_grad_semantics (fexp flog : ℚ → ℚ)
    (sp_idx anc_keys pn_keys : List ℕ)
    (pn_sign Wa Wc b X W b2 : List ℚ) (do_grad : ℤ)
    (vec_dim pn_size i j Xk j2 : ℕ) (sw : W2VState) (sn sa : NSLState)
    (cacc : ℕ × ℚ) (Wk_n : ℕ) (f_n denom : ℚ)
    (hWkn : Wk_n = pn_keys.getD (Xk * pn_size + j2) 0)
    (hfn : f_n = acl_k * fexp (acl_a * dotSeg vec_dim X (Xk * vec_dim) W
      (Wk_n * vec_dim) + b2.getD Wk_n 0))
    (hdenom : denom = acl_denom acl_c cacc.2 f_n) :
    (do_grad ≠ 1 →
      ((cy_w2v_ff_bp0 fexp flog sp_idx anc_keys pn_keys pn_sign Wa Wc b
          do_grad vec_dim pn_size sw).dWa = sw.dWa
        ∧ (cy_w2v_ff_bp0 fexp flog sp_idx anc_keys pn_keys pn_sign Wa Wc
          b do_grad vec_dim pn_size sw).dWc = sw.dWc
        ∧ (cy_w2v_ff_bp0 fexp flog sp_idx anc_keys pn_keys pn_sign Wa Wc
          b do_grad vec_dim pn_size sw).db = sw.db)
      ∧ ((cy_nsl_ff_bp0 fexp flog sp_idx pn_keys pn_sign X W b2 do_grad
          vec_dim pn_size sn).dX = sn.dX
        ∧ (cy_nsl_ff_bp0 fexp flog sp_idx pn_keys pn_sign X W b2 do_grad
          vec_dim pn_size sn).dW = sn.dW
        ∧ (cy_nsl_ff_bp0 fexp flog sp_idx pn_keys pn_sign X W b2 do_grad
          vec_dim pn_size sn).db = sn.db)
      ∧ ((cy_acl_ff_bp0 fexp flog sp_idx pn_keys pn_sign X W b2 do_grad
          vec_dim pn_size sa).dX = sa.dX
        ∧ (cy_acl_ff_bp0 fexp flog sp_idx pn_keys pn_sign X W b2 do_grad
          vec_dim pn_size sa).dW = sa.dW
        ∧ (cy_acl_ff_bp0 fexp flog sp_idx pn_keys pn_sign X W b2 do_grad
          vec_dim pn_size sa).db = sa.db))
    ∧ (do_grad = 1 →
      (pn_keys.getD (i * pn_size + j) 0 < sw.db.length →
        (w2v_slot fexp flog anc_keys pn_keys pn_sign Wa Wc b do_grad
            vec_dim pn_size i j sw).db.getD
            (pn_keys.getD (i * pn_size + j) 0) 0 =
          sw.db.getD (pn_keys.getD (i * pn_size + j) 0) 0 +
            w2v_g_term fexp anc_keys pn_keys pn_sign Wa Wc b vec_dim
              pn_size i j)
      ∧ (pn_keys.getD (Xk * pn_size + j) 0 < MAX_HSM_KEY →
          pn_keys.getD (Xk * pn_size + j) 0 < sn.db.length →
        (nsl_slot fexp flog pn_keys pn_sign X W b2 do_grad vec_dim
            pn_size Xk j sn).db.getD
            (pn_keys.getD (Xk * pn_size + j) 0) 0 =
          sn.db.getD (pn_keys.getD (Xk * pn_size + j) 0) 0 +
            nsl_g_term fexp pn_keys pn_sign X W b2 vec_dim pn_size Xk j)
      ∧ (j2 ≠ 0 → cacc.1 ≠ Wk_n → cacc.1 < sa.db.length →
          Wk_n < sa.db.length →
        (acl_slot fexp flog pn_keys X W b2 do_grad vec_dim pn_size Xk j2
            (cacc, sa)).2.db.getD cacc.1 0 =
          sa.db.getD cacc.1 0 + acl_g_bp acl_c f_n denom
        ∧ (acl_slot fexp flog pn_keys X W b2 do_grad vec_dim pn_size Xk
            j2 (cacc, sa)).2.db.getD Wk_n 0 =
          sa.db.getD Wk_n 0 + acl_g_bn f_n denom)) := by
  subst hdenom hfn hWkn
  constructor
  · intro hdg
    refine ⟨?_, ?_, ?_⟩
    · exact foldl_invariant _
        (fun st => st.dWa = sw.dWa ∧ st.dWc = sw.dWc ∧ st.db = sw.db)
        (fun st i2 h => foldl_invariant _
          (fun st2 => st2.dWa = sw.dWa ∧ st2.dWc = sw.dWc ∧
            st2.db = sw.db)
          (fun st2 j2b h2 =>
            have hc := w2v_slot_grads_const fexp flog anc_keys pn_keys
              pn_sign Wa Wc b do_grad vec_dim pn_size i2 j2b st2 hdg
            ⟨hc.1.trans h2.1, hc.2.1.trans h2.2.1, hc.2.2.trans h2.2.2⟩)
          (List.range pn_size) st h)
        sp_idx sw ⟨rfl, rfl, rfl⟩
    · exact foldl_invariant _
        (fun st => st.dX = sn.dX ∧ st.dW = sn.dW ∧ st.db = sn.db)
        (fun st i2 h => foldl_invariant _
          (fun st2 => st2.dX = sn.dX ∧ st2.dW = sn.dW ∧ st2.db = sn.db)
          (fun st2 j2b h2 =>
            have hc := nsl_slot_grads_const fexp flog pn_keys pn_sign X
              W b2 do_grad vec_dim pn_size i2 j2b st2 hdg
            ⟨hc.1.trans h2.1, hc.2.1.trans h2.2.1, hc.2.2.trans h2.2.2⟩)
          (List.range pn_size) st h)
        sp_idx sn ⟨rfl, rfl, rfl⟩
    · exact foldl_invariant _
        (fun st => st.dX = sa.dX ∧ st.dW = sa.dW ∧ st.db = sa.db)
        (fun st i2 h => foldl_invariant _
          (fun acc => acc.2.dX = sa.dX ∧ acc.2.dW = sa.dW ∧
            acc.2.db = sa.db)
          (fun acc j2b h2 =>
            have hc := acl_slot_grads_const fexp flog pn_keys X W b2
              do_grad vec_dim pn_size i2 j2b acc hdg
            ⟨hc.1.trans h2.1, hc.2.1.trans h2.2.1, hc.2.2.trans h2.2.2⟩)
          (List.range pn_size) ((0, 0), st) h)
        sp_idx sa ⟨rfl, rfl, rfl⟩
  · intro hdg1
    refine ⟨?_, ?_, ?_⟩
    · intro hlen
      simp only [w2v_slot, if_pos hdg1]
      rw [getD_set_self _ _ _ hlen]
      rfl
    · intro hkey hlen
      simp only [nsl_slot, if_pos hkey, if_pos hdg1]
      rw [getD_set_self _ _ _ hlen]
      rfl
    · intro hj2 hne hlen1 hlen2
      simp only [acl_slot, if_neg hj2, if_pos hdg1]
      constructor
      · rw [getD_set_ne _ _ _ _ (fun h => hne h.symm)]
        rw [getD_set_self _ _ _ hlen1]
      · rw [getD_set_self _ _ _ (by rw [List.length_set]; exact hlen2)]
        rw [getD_set_ne _ _ _ _ hne]

/-- Witness for the amended C8: at a concrete input, a call with
`do_grad = 0` leaves `dWa` unchanged, and a slot with `do_grad = 1` adds
the coefficient to the bias gradient. -/
theorem do_grad_semantics_witness :
    (cy_w2v_ff_bp0 (fun _ => 1) (fun q => q) [0] [0] [0, 1] [1, 1] [0]
      [0] [0] 0 1 2 ⟨[0], [0], [0], [0]⟩).dWa = [0]
    ∧ (w2v_slot (fun _ => 1) (fun q => q) [0] [0, 1] [1, 1] [0] [0] [0] 1
        1 2 0 0 ⟨[0], [0], [0], [0]⟩).db.getD
        ([0, 1].getD (0 * 2 + 0) 0) 0 =
      (⟨[0], [0], [0], [0]⟩ : W2VState).db.getD
        ([0, 1].getD (0 * 2 + 0) 0) 0 +
        w2v_g_term (fun _ => 1) [0] [0, 1] [1, 1] [0] [0] [0] 1 2 0 0 := by
  constructor
  · exact ((do_grad_semantics (fun _ => 1) (fun q => q) [0] [0] [0, 1]
      [1, 1] [0] [0] [0] [0] [0] [0] 0 1 2 0 0 0 1
      ⟨[0], [0], [0], [0]⟩ ⟨[0], [0], [0], [0]⟩ ⟨[0], [0], [0], [0]⟩
      (0, 1) 1 1 (acl_denom acl_c 1 1) (by norm_num)
      (by norm_num [dotSeg, acl_a, acl_k]) (by norm_num)).1
      (by norm_num)).1.1
  · exact ((do_grad_semantics (fun _ => 1) (fun q => q) [0] [0] [0, 1]
      [1, 1] [0] [0] [0] [0] [0] [0] 1 1 2 0 0 0 1
      ⟨[0], [0], [0], [0]⟩ ⟨[0], [0], [0], [0]⟩ ⟨[0], [0], [0], [0]⟩
      (0, 1) 1 1 (acl_denom acl_c 1 1) (by norm_num)
      (by norm_num [dotSeg, acl_a, acl_k]) (by norm_num)).2 rfl).1
      (by norm_num)

/-- C8 counterexample: the claim that every NONZERO `do_grad` performs
the gradient mutations is false: with `do_grad = 2` the two-table kernel
leaves the bias gradient at `[0]`, although the gradient coefficient of
the single processed pair is `-1/2 ≠ 0`, so the described mutation would
have changed it to `0 + (-1/2)`. -/
theorem do_grad_nonzero_claim_false :
    (cy_w2v_ff_bp0 (fun _ => 1) (fun q => q) [0] [0] [0] [1] [0] [0] [0]
      2 1 1 ⟨[0], [0], [0], [0]⟩).db = [0]
    ∧ w2v_g_term (fun _ => 1) [0] [0] [1] [0] [0] [0] 1 1 0 0 = -(1 / 2)
    ∧ (0 : ℚ) ≠ 0 + -(1 / 2) := by
  refine ⟨?_, by norm_num [w2v_g_term, dotSeg], by norm_num⟩
  show (w2v_slot (fun _ => 1) (fun q => q) [0] [0] [1] [0] [0] [0] 2 1 1
    0 0 ⟨[0], [0], [0], [0]⟩).db = [0]
  exact (w2v_slot_grads_const (fun _ => 1) (fun q => q) [0] [0] [1] [0]
    [0] [0] 2 1 1 0 0 ⟨[0], [0], [0], [0]⟩ (by decide)).2.2

end NNPython
